import Mathlib

/-!
Verification of the traffic classification and aggregation engine of the
`lantern` dashboard: the port classifier `categorizePort`, the category
builder, the stable top-N ranking used by the dashboard's traffic route,
and the `GET` assembly of the `/api/traffic` response.

Each definition is a shallow embedding of the corresponding TypeScript in
the traffic route source.  JavaScript numbers that hold row counts are
modelled as `Int` (all arithmetic involved is exact integer arithmetic);
the possibly-NaN result of `parseInt` is modelled as `Option Int` with
`none` standing for NaN.
-/

/-- The static well-known-port table `portCategories`, as an ordered list of
entries `(port, (category, service))`, exactly as written in the source. -/
def portCategoriesList : List (Int × String × String) :=
  [ (80, ("Web", "HTTP")),
    (443, ("Web", "HTTPS")),
    (8080, ("Web", "HTTP Proxy")),
    (8443, ("Web", "HTTPS Alt")),
    (3000, ("Web", "Dev Server")),
    (5000, ("Web", "Dev Server")),
    (3306, ("Database", "MySQL")),
    (5432, ("Database", "PostgreSQL")),
    (27017, ("Database", "MongoDB")),
    (6379, ("Database", "Redis")),
    (1433, ("Database", "SQL Server")),
    (1521, ("Database", "Oracle")),
    (25, ("Email", "SMTP")),
    (465, ("Email", "SMTPS")),
    (587, ("Email", "SMTP Submission")),
    (110, ("Email", "POP3")),
    (995, ("Email", "POP3S")),
    (143, ("Email", "IMAP")),
    (993, ("Email", "IMAPS")),
    (21, ("File Sharing", "FTP")),
    (22, ("Remote Access", "SSH")),
    (445, ("File Sharing", "SMB")),
    (139, ("File Sharing", "NetBIOS")),
    (2049, ("File Sharing", "NFS")),
    (53, ("DNS", "DNS")),
    (67, ("Network", "DHCP Server")),
    (68, ("Network", "DHCP Client")),
    (123, ("Network", "NTP")),
    (161, ("Network", "SNMP")),
    (554, ("Streaming", "RTSP")),
    (1935, ("Streaming", "RTMP")),
    (5004, ("Streaming", "RTP")),
    (5005, ("Streaming", "RTP")),
    (5060, ("VoIP", "SIP")),
    (5061, ("VoIP", "SIP TLS")),
    (3478, ("VoIP", "STUN")),
    (5222, ("Messaging", "XMPP")),
    (23, ("Remote Access", "Telnet")),
    (3389, ("Remote Access", "RDP")),
    (5900, ("Remote Access", "VNC")),
    (5353, ("Discovery", "mDNS")),
    (1900, ("Discovery", "SSDP/UPnP")),
    (5355, ("Discovery", "LLMNR")),
    (137, ("Discovery", "NetBIOS NS")),
    (138, ("Discovery", "NetBIOS DG")) ]

/-- The JavaScript object lookup `portCategories[port]` (undefined when the
key is absent, modelled as `none`). -/
def portCategories (port : Int) : Option (String × String) :=
  (portCategoriesList.find? (fun e => e.1 == port)).map (fun e => e.2)

/-- The template-literal service label `Port ${port}` used by the range
heuristics. -/
def portLabel (port : Int) : String := "Port " ++ toString port

/-- Shallow embedding of `categorizePort`: table lookup first, then the
ordered range heuristics from the source. -/
def categorizePort (port : Int) : String × String :=
  match portCategories port with
  | some entry => entry
  | none =>
    if 1024 ≤ port ∧ port ≤ 49151 then ("Application", portLabel port)
    else if 49152 ≤ port then ("Ephemeral", portLabel port)
    else ("Other", portLabel port)

/-- The category names occurring in the static table. -/
def tableCategories : List String :=
  ["Web", "Database", "Email", "File Sharing", "Remote Access", "DNS",
   "Network", "Streaming", "VoIP", "Messaging", "Discovery"]

theorem portCategories_category_mem (p : Int) (entry : String × String)
    (h : portCategories p = some entry) : entry.1 ∈ tableCategories := by
  unfold portCategories at h
  rcases Option.map_eq_some'.mp h with ⟨e, he, rfl⟩
  have hmem := List.mem_of_find?_eq_some he
  have hall : ∀ e ∈ portCategoriesList, e.2.1 ∈ tableCategories := by decide
  exact hall e hmem

theorem portCategories_key_range (p : Int) (entry : String × String)
    (h : portCategories p = some entry) : 0 ≤ p ∧ p ≤ 65535 := by
  unfold portCategories at h
  rcases Option.map_eq_some'.mp h with ⟨e, he, -⟩
  have hmem := List.mem_of_find?_eq_some he
  have hkey := List.find?_some he
  have hall : ∀ e ∈ portCategoriesList, 0 ≤ e.1 ∧ e.1 ≤ 65535 := by decide
  have := hall e hmem
  have hp : e.1 = p := by simpa using hkey
  omega

/-- C2: on every integer port in [0, 65535], `categorizePort` is a total
function that returns the table entry verbatim when one exists, otherwise
applies the ordered range rules (Application for 1024..49151, Ephemeral for
≥ 49152, Other for the rest), and its category always belongs to the fixed
set of table categories together with Application, Ephemeral and Other. -/
theorem categorizePort_total_spec (port : Int) (h0 : 0 ≤ port) (h1 : port ≤ 65535) :
    (∀ entry, portCategories port = some entry → categorizePort port = entry) ∧
    (portCategories port = none → 1024 ≤ port → port ≤ 49151 →
      categorizePort port = ("Application", portLabel port)) ∧
    (portCategories port = none → 49152 ≤ port →
      categorizePort port = ("Ephemeral", portLabel port)) ∧
    (portCategories port = none → port < 1024 →
      categorizePort port = ("Other", portLabel port)) ∧
    (categorizePort port).1 ∈ tableCategories ++ ["Application", "Ephemeral", "Other"] := by
  refine ⟨?_, ?_, ?_, ?_, ?_⟩
  · intro entry h
    simp [categorizePort, h]
  · intro h hlo hhi
    simp [categorizePort, h, hlo, hhi]
  · intro h hlo
    have hnot : ¬(1024 ≤ port ∧ port ≤ 49151) := by omega
    simp [categorizePort, h, hnot, hlo]
  · intro h hhi
    have hnot : ¬(1024 ≤ port ∧ port ≤ 49151) := by omega
    have hnot2 : ¬(49152 ≤ port) := by omega
    simp [categorizePort, h, hnot, hnot2]
  · cases hc : portCategories port with
    | some entry =>
      have := portCategories_category_mem port entry hc
      simp [categorizePort, hc, List.mem_append]
      exact Or.inl this
    | none =>
      by_cases hA : 1024 ≤ port ∧ port ≤ 49151
      · simp [categorizePort, hc, hA]
      · by_cases hE : 49152 ≤ port
        · simp [categorizePort, hc, hA, hE]
        · simp [categorizePort, hc, hA, hE]

/-- Witness for C2: port 54321 (scenario B) is not in the table and falls in
the Ephemeral range. -/
theorem categorizePort_total_spec_witness :
    categorizePort 54321 = ("Ephemeral", portLabel 54321) :=
  (categorizePort_total_spec 54321 (by decide) (by decide)).2.2.1 (by decide) (by decide)

/-- C9: `categorizePort` is total on all of `Int`: every negative port maps
to category Other and every port above 65535 maps to category Ephemeral,
each with the `Port n` service label; no input is an error. -/
theorem categorizePort_total_int (port : Int) :
    (port < 0 → categorizePort port = ("Other", portLabel port)) ∧
    (65535 < port → categorizePort port = ("Ephemeral", portLabel port)) := by
  constructor
  · intro hneg
    cases hc : portCategories port with
    | some entry =>
      have := portCategories_key_range port entry hc
      omega
    | none =>
      have hnot : ¬(1024 ≤ port ∧ port ≤ 49151) := by omega
      have hnot2 : ¬(49152 ≤ port) := by omega
      simp [categorizePort, hc, hnot, hnot2]
  · intro hbig
    cases hc : portCategories port with
    | some entry =>
      have := portCategories_key_range port entry hc
      omega
    | none =>
      have hnot : ¬(1024 ≤ port ∧ port ≤ 49151) := by omega
      have h2 : 49152 ≤ port := by omega
      simp [categorizePort, hc, hnot, h2]

/-- Witness for C9 at ports -1 and 70000. -/
theorem categorizePort_total_int_witness :
    categorizePort (-1) = ("Other", portLabel (-1)) ∧
    categorizePort 70000 = ("Ephemeral", portLabel 70000) :=
  ⟨(categorizePort_total_int (-1)).1 (by decide),
   (categorizePort_total_int 70000).2 (by decide)⟩

/-- Stable descending insertion used to model `Array.prototype.sort` with the
comparator `(a, b) => b.count - a.count`: ECMAScript sort is stable, and a
stable sort's output is uniquely determined by the comparator's total
preorder, so insertion placing each earlier element before later
equal-valued ones reproduces it exactly. -/
def orderedInsertDesc (f : α → Int) (a : α) : List α → List α
  | [] => [a]
  | b :: l => if f b ≤ f a then a :: b :: l else b :: orderedInsertDesc f a l

/-- Stable sort by `f` descending (model of the source's `.sort((a, b) =>
b.count - a.count)`). -/
def sortDesc (f : α → Int) : List α → List α
  | [] => []
  | a :: l => orderedInsertDesc f a (sortDesc f l)

/-- The top-N selection pattern of the source: stable sort descending by the
extracted count, then `.slice(0, n)`. -/
def topN (f : α → Int) (n : Nat) (l : List α) : List α :=
  (sortDesc f l).take n

/-- Tags every element of a list with its position, starting at `n`; used to
speak formally about original positions in stability statements. -/
def withIdx : List α → Nat → List (α × Nat)
  | [], _ => []
  | a :: l, n => (a, n) :: withIdx l (n + 1)

theorem mem_orderedInsertDesc {f : α → Int} {a x : α} {l : List α} :
    x ∈ orderedInsertDesc f a l ↔ x = a ∨ x ∈ l := by
  induction l with
  | nil => simp [orderedInsertDesc]
  | cons b l ih =>
    by_cases h : f b ≤ f a
    · simp [orderedInsertDesc, h]
    · simp [orderedInsertDesc, h, ih]
      tauto

theorem orderedInsertDesc_perm (f : α → Int) (a : α) (l : List α) :
    (orderedInsertDesc f a l).Perm (a :: l) := by
  induction l with
  | nil => simp [orderedInsertDesc]
  | cons b l ih =>
    by_cases h : f b ≤ f a
    · simp [orderedInsertDesc, h]
    · simp only [orderedInsertDesc, if_neg h]
      exact (ih.cons b).trans (List.Perm.swap a b l)

theorem sortDesc_perm (f : α → Int) (l : List α) : (sortDesc f l).Perm l := by
  induction l with
  | nil => simp [sortDesc]
  | cons a l ih =>
    exact (orderedInsertDesc_perm f a (sortDesc f l)).trans (ih.cons a)

theorem map_fst_orderedInsertDesc (f : α → Int) (a : α × Nat) (l : List (α × Nat)) :
    (orderedInsertDesc (fun p => f p.1) a l).map Prod.fst =
      orderedInsertDesc f a.1 (l.map Prod.fst) := by
  induction l with
  | nil => simp [orderedInsertDesc]
  | cons b l ih =>
    by_cases h : f b.1 ≤ f a.1
    · simp [orderedInsertDesc, h]
    · simp [orderedInsertDesc, h, ih]

theorem map_fst_sortDesc (f : α → Int) (l : List (α × Nat)) :
    (sortDesc (fun p => f p.1) l).map Prod.fst = sortDesc f (l.map Prod.fst) := by
  induction l with
  | nil => simp [sortDesc]
  | cons a l ih => simp [sortDesc, map_fst_orderedInsertDesc, ih]

theorem withIdx_map_fst (l : List α) (n : Nat) : (withIdx l n).map Prod.fst = l := by
  induction l generalizing n with
  | nil => simp [withIdx]
  | cons a l ih => simp [withIdx, ih]

theorem withIdx_le (l : List α) (n : Nat) : ∀ x ∈ withIdx l n, n ≤ x.2 := by
  induction l generalizing n with
  | nil => simp [withIdx]
  | cons a l ih =>
    intro x hx
    rcases List.mem_cons.mp hx with rfl | hx'
    · exact Nat.le_refl n
    · exact Nat.le_of_succ_le (ih (n + 1) x hx')

theorem withIdx_pairwise (l : List α) (n : Nat) :
    (withIdx l n).Pairwise (fun a b => a.2 < b.2) := by
  induction l generalizing n with
  | nil => simp [withIdx]
  | cons a l ih =>
    refine List.Pairwise.cons ?_ (ih (n + 1))
    intro x hx
    have := withIdx_le l (n + 1) x hx
    omega

theorem orderedInsertDesc_stable (f : α → Int) (a : α × Nat) (l : List (α × Nat))
    (hl : l.Pairwise (fun x y => f y.1 < f x.1 ∨ (f x.1 = f y.1 ∧ x.2 < y.2)))
    (ha : ∀ b ∈ l, a.2 < b.2) :
    (orderedInsertDesc (fun p => f p.1) a l).Pairwise
      (fun x y => f y.1 < f x.1 ∨ (f x.1 = f y.1 ∧ x.2 < y.2)) := by
  induction l with
  | nil => simp [orderedInsertDesc]
  | cons b l ih =>
    have hb := (List.pairwise_cons.mp hl).1
    have hl' := (List.pairwise_cons.mp hl).2
    by_cases h : f b.1 ≤ f a.1
    · simp only [orderedInsertDesc, if_pos h]
      refine List.Pairwise.cons ?_ hl
      intro x hx
      rcases List.mem_cons.mp hx with rfl | hx'
      · rcases h.lt_or_eq with hlt | heq
        · exact Or.inl hlt
        · exact Or.inr ⟨heq.symm, ha x (List.mem_cons_self _ _)⟩
      · have hxle : f x.1 ≤ f b.1 := by
          rcases hb x hx' with h1 | ⟨h1, -⟩ <;> omega
        rcases (le_trans hxle h).lt_or_eq with hlt | heq
        · exact Or.inl hlt
        · exact Or.inr ⟨heq.symm, ha x (List.mem_cons_of_mem _ hx')⟩
    · simp only [orderedInsertDesc, if_neg h]
      refine List.Pairwise.cons ?_ (ih hl' (fun x hx => ha x (List.mem_cons_of_mem _ hx)))
      intro x hx
      rcases mem_orderedInsertDesc.mp hx with rfl | hx'
      · exact Or.inl (by omega)
      · exact hb x hx'

theorem sortDesc_stable (f : α → Int) (l : List (α × Nat))
    (h : l.Pairwise (fun a b => a.2 < b.2)) :
    (sortDesc (fun p => f p.1) l).Pairwise
      (fun x y => f y.1 < f x.1 ∨ (f x.1 = f y.1 ∧ x.2 < y.2)) := by
  induction l with
  | nil => simp [sortDesc]
  | cons a l ih =>
    have hhead := (List.pairwise_cons.mp h).1
    have htail := (List.pairwise_cons.mp h).2
    simp only [sortDesc]
    refine orderedInsertDesc_stable f a (sortDesc _ l) (ih htail) ?_
    intro b hb
    exact hhead b ((sortDesc_perm _ l).mem_iff.mp hb)

theorem sortDesc_pairwise_le (f : α → Int) (l : List α) :
    (sortDesc f l).Pairwise (fun a b => f b ≤ f a) := by
  have h := sortDesc_stable f (withIdx l 0) (withIdx_pairwise l 0)
  have hmap : (sortDesc (fun p => f p.1) (withIdx l 0)).map Prod.fst = sortDesc f l := by
    rw [map_fst_sortDesc, withIdx_map_fst]
  rw [← hmap, List.pairwise_map]
  exact h.imp (fun hab => by rcases hab with h1 | ⟨h1, -⟩ <;> omega)

theorem sortDesc_of_pairwise (f : α → Int) (l : List α)
    (h : l.Pairwise (fun a b => f b ≤ f a)) : sortDesc f l = l := by
  induction l with
  | nil => rfl
  | cons a l ih =>
    have hhead := (List.pairwise_cons.mp h).1
    have htail := (List.pairwise_cons.mp h).2
    simp only [sortDesc, ih htail]
    cases l with
    | nil => rfl
    | cons b l' =>
      have hba : f b ≤ f a := hhead b (List.mem_cons_self _ _)
      simp [orderedInsertDesc, hba]

theorem topN_idem (f : α → Int) (n : Nat) (l : List α) :
    topN f n (topN f n l) = topN f n l := by
  unfold topN
  have hsorted : ((sortDesc f l).take n).Pairwise (fun a b => f b ≤ f a) :=
    (sortDesc_pairwise_le f l).sublist (List.take_sublist n _)
  rw [sortDesc_of_pairwise f _ hsorted, List.take_take]
  simp

/-- C5: the top-N ranking is a stable selection: on a position-tagged input
list its output is strictly ordered by (count descending, original position
ascending), so equal-count items are never reordered relative to their input
order, and `topN` is idempotent. -/
theorem topN_stable_idempotent (l : List α) (f : α → Int) (n : Nat) :
    (topN (fun p : α × Nat => f p.1) n (withIdx l 0)).Pairwise
      (fun x y => f y.1 < f x.1 ∨ (f x.1 = f y.1 ∧ x.2 < y.2)) ∧
    topN f n (topN f n l) = topN f n l := by
  constructor
  · exact (sortDesc_stable f (withIdx l 0) (withIdx_pairwise l 0)).sublist
      (List.take_sublist n _)
  · exact topN_idem f n l

/-- A row of the (already limited) port aggregate fed to the category
builder, as selected by the `top_ports` query. -/
structure PortRow where
  port : Int
  protocol : String
  count : Int
deriving DecidableEq

/-- One `{port, service, count}` contribution pushed onto a category. -/
structure CatPortEntry where
  port : Int
  service : String
  count : Int
deriving DecidableEq

/-- The `CategorySummary` accumulator value of the source. -/
structure CategorySummary where
  category : String
  count : Int
  ports : List CatPortEntry
deriving DecidableEq

/-- One step of the accumulation loop on the insertion-ordered category map
(a JS `Map` keyed by category): create the empty summary when the category is
absent (appending it at the end, as `Map.set` does), then add the row's count
and push its contribution. -/
def insertEntry (cat : String) (e : CatPortEntry) :
    List CategorySummary → List CategorySummary
  | [] => [⟨cat, e.count, [e]⟩]
  | c :: rest =>
    if c.category = cat then ⟨c.category, c.count + e.count, c.ports ++ [e]⟩ :: rest
    else c :: insertEntry cat e rest

/-- Body of `for (const port of ports)` in the source. -/
def buildStep (acc : List CategorySummary) (r : PortRow) : List CategorySummary :=
  insertEntry (categorizePort r.port).1 ⟨r.port, (categorizePort r.port).2, r.count⟩ acc

/-- The fully accumulated category map, in first-encountered order. -/
def buildCategoryMap (rows : List PortRow) : List CategorySummary :=
  rows.foldl buildStep []

/-- The per-category final pass of the source: sort the category's ports by
count descending and keep the top 5. -/
def truncateSummary (c : CategorySummary) : CategorySummary :=
  { c with ports := (sortDesc (fun p => p.count) c.ports).take 5 }

/-- The category list of the response: accumulate, sort categories by count
descending, then truncate each category's ports to its top 5. -/
def buildCategories (rows : List PortRow) : List CategorySummary :=
  (sortDesc (fun c => c.count) (buildCategoryMap rows)).map truncateSummary

/-- Sum of `count` over the rows of `L` whose classification is `cat`. -/
def catCount (rows : List PortRow) (cat : String) : Int :=
  ((rows.filter (fun r => (categorizePort r.port).1 == cat)).map (fun r => r.count)).sum

/-- Sum of `count` over the summaries of an accumulator that carry a given
category name. -/
def accCount (l : List CategorySummary) (cat : String) : Int :=
  ((l.filter (fun c => c.category == cat)).map (fun c => c.count)).sum

theorem accCount_cons (x : CategorySummary) (l : List CategorySummary) (c : String) :
    accCount (x :: l) c = (if x.category = c then x.count else 0) + accCount l c := by
  by_cases h : x.category = c <;> simp [accCount, List.filter_cons, h]

theorem catCount_cons (r : PortRow) (rows : List PortRow) (c : String) :
    catCount (r :: rows) c =
      (if (categorizePort r.port).1 = c then r.count else 0) + catCount rows c := by
  by_cases h : (categorizePort r.port).1 = c <;> simp [catCount, List.filter_cons, h]

theorem insertEntry_accCount (cat : String) (e : CatPortEntry)
    (acc : List CategorySummary) (c : String) :
    accCount (insertEntry cat e acc) c =
      accCount acc c + (if cat = c then e.count else 0) := by
  induction acc with
  | nil =>
    by_cases h : cat = c <;> simp [insertEntry, accCount, List.filter_cons, h]
  | cons x rest ih =>
    by_cases hx : x.category = cat
    · simp only [insertEntry, if_pos hx]
      rw [accCount_cons, accCount_cons]
      by_cases h : cat = c
      · rw [hx] at *
        simp [h]
        ring
      · have : x.category ≠ c := by rw [hx]; exact h
        simp [hx, h, this]
    · simp only [insertEntry, if_neg hx]
      rw [accCount_cons, accCount_cons, ih]
      ring

/-- Total count held by an accumulator. -/
def totalCount (l : List CategorySummary) : Int := (l.map (fun c => c.count)).sum

/-- Total number of port contributions held by an accumulator. -/
def totalPorts (l : List CategorySummary) : Nat := (l.map (fun c => c.ports.length)).sum

theorem insertEntry_totalCount (cat : String) (e : CatPortEntry)
    (acc : List CategorySummary) :
    totalCount (insertEntry cat e acc) = totalCount acc + e.count := by
  induction acc with
  | nil => simp [insertEntry, totalCount]
  | cons x rest ih =>
    by_cases hx : x.category = cat
    · simp [insertEntry, hx, totalCount]
      ring
    · simp [insertEntry, hx, totalCount] at ih ⊢
      rw [ih]
      ring

theorem insertEntry_totalPorts (cat : String) (e : CatPortEntry)
    (acc : List CategorySummary) :
    totalPorts (insertEntry cat e acc) = totalPorts acc + 1 := by
  induction acc with
  | nil => simp [insertEntry, totalPorts]
  | cons x rest ih =>
    by_cases hx : x.category = cat
    · simp [insertEntry, hx, totalPorts]
      omega
    · simp [insertEntry, hx, totalPorts] at ih ⊢
      omega

theorem category_mem_insertEntry (cat : String) (e : CatPortEntry) :
    ∀ (acc : List CategorySummary) (x : CategorySummary), x ∈ insertEntry cat e acc →
      x.category = cat ∨ ∃ y ∈ acc, x.category = y.category := by
  intro acc
  induction acc with
  | nil =>
    intro x hx
    simp only [insertEntry, List.mem_singleton] at hx
    subst hx
    exact Or.inl rfl
  | cons c rest ih =>
    intro x hx
    by_cases hc : c.category = cat
    · simp only [insertEntry, if_pos hc] at hx
      rcases List.mem_cons.mp hx with rfl | hx'
      · exact Or.inr ⟨c, List.mem_cons_self _ _, rfl⟩
      · exact Or.inr ⟨x, List.mem_cons_of_mem _ hx', rfl⟩
    · simp only [insertEntry, if_neg hc] at hx
      rcases List.mem_cons.mp hx with rfl | hx'
      · exact Or.inr ⟨x, List.mem_cons_self _ _, rfl⟩
      · rcases ih x hx' with h1 | ⟨y, hy, hxy⟩
        · exact Or.inl h1
        · exact Or.inr ⟨y, List.mem_cons_of_mem _ hy, hxy⟩

theorem insertEntry_pairwise (cat : String) (e : CatPortEntry)
    (acc : List CategorySummary)
    (h : acc.Pairwise (fun a b => a.category ≠ b.category)) :
    (insertEntry cat e acc).Pairwise (fun a b => a.category ≠ b.category) := by
  induction acc with
  | nil => simp [insertEntry]
  | cons c rest ih =>
    have hhead := (List.pairwise_cons.mp h).1
    have htail := (List.pairwise_cons.mp h).2
    by_cases hc : c.category = cat
    · simp only [insertEntry, if_pos hc]
      exact List.Pairwise.cons (fun x hx => hhead x hx) htail
    · simp only [insertEntry, if_neg hc]
      refine List.Pairwise.cons ?_ (ih htail)
      intro x hx
      rcases category_mem_insertEntry cat e rest x hx with h1 | ⟨y, hy, hxy⟩
      · rw [h1]
        exact hc
      · rw [hxy]
        exact hhead y hy

/-- Sum of the counts of a summary's own port contributions. -/
def portsSum (c : CategorySummary) : Int := (c.ports.map (fun p => p.count)).sum

theorem insertEntry_portsSum (cat : String) (e : CatPortEntry)
    (acc : List CategorySummary)
    (h : ∀ x ∈ acc, x.count = portsSum x) :
    ∀ x ∈ insertEntry cat e acc, x.count = portsSum x := by
  induction acc with
  | nil =>
    intro x hx
    simp only [insertEntry, List.mem_singleton] at hx
    subst hx
    simp [portsSum]
  | cons c rest ih =>
    intro x hx
    by_cases hc : c.category = cat
    · simp only [insertEntry, if_pos hc] at hx
      rcases List.mem_cons.mp hx with rfl | hx'
      · have := h c (List.mem_cons_self _ _)
        simp [portsSum] at this ⊢
        omega
      · exact h x (List.mem_cons_of_mem _ hx')
    · simp only [insertEntry, if_neg hc] at hx
      rcases List.mem_cons.mp hx with rfl | hx'
      · exact h x (List.mem_cons_self _ _)
      · exact ih (fun y hy => h y (List.mem_cons_of_mem _ hy)) x hx'

theorem buildFold_accCount (rows : List PortRow) :
    ∀ (acc : List CategorySummary) (c : String),
      accCount (rows.foldl buildStep acc) c = accCount acc c + catCount rows c := by
  induction rows with
  | nil =>
    intro acc c
    simp [catCount]
  | cons r rows ih =>
    intro acc c
    rw [List.foldl_cons, ih (buildStep acc r) c, catCount_cons]
    have : accCount (buildStep acc r) c =
        accCount acc c + (if (categorizePort r.port).1 = c then r.count else 0) :=
      insertEntry_accCount _ _ _ _
    rw [this]
    ring

theorem buildFold_totalCount (rows : List PortRow) :
    ∀ acc : List CategorySummary,
      totalCount (rows.foldl buildStep acc) =
        totalCount acc + (rows.map (fun r => r.count)).sum := by
  induction rows with
  | nil => intro acc; simp
  | cons r rows ih =>
    intro acc
    rw [List.foldl_cons, ih (buildStep acc r)]
    simp only [buildStep]
    rw [insertEntry_totalCount]
    simp
    ring

theorem buildFold_totalPorts (rows : List PortRow) :
    ∀ acc : List CategorySummary,
      totalPorts (rows.foldl buildStep acc) = totalPorts acc + rows.length := by
  induction rows with
  | nil => intro acc; simp
  | cons r rows ih =>
    intro acc
    rw [List.foldl_cons, ih (buildStep acc r)]
    simp only [buildStep]
    rw [insertEntry_totalPorts]
    simp
    omega

theorem buildFold_pairwise (rows : List PortRow) :
    ∀ acc : List CategorySummary,
      acc.Pairwise (fun a b => a.category ≠ b.category) →
      (rows.foldl buildStep acc).Pairwise (fun a b => a.category ≠ b.category) := by
  induction rows with
  | nil => intro acc h; simpa using h
  | cons r rows ih =>
    intro acc h
    rw [List.foldl_cons]
    exact ih (buildStep acc r) (insertEntry_pairwise _ _ _ h)

theorem buildFold_portsSum (rows : List PortRow) :
    ∀ acc : List CategorySummary,
      (∀ x ∈ acc, x.count = portsSum x) →
      ∀ x ∈ rows.foldl buildStep acc, x.count = portsSum x := by
  induction rows with
  | nil => intro acc h; simpa using h
  | cons r rows ih =>
    intro acc h
    rw [List.foldl_cons]
    exact ih (buildStep acc r) (insertEntry_portsSum _ _ _ h)

theorem buildCategoryMap_pairwise (rows : List PortRow) :
    (buildCategoryMap rows).Pairwise (fun a b => a.category ≠ b.category) :=
  buildFold_pairwise rows [] (List.Pairwise.nil)

theorem buildCategoryMap_portsSum (rows : List PortRow) :
    ∀ x ∈ buildCategoryMap rows, x.count = portsSum x :=
  buildFold_portsSum rows [] (by simp)

theorem accCount_eq_zero (l : List CategorySummary) (cat : String)
    (h : ∀ y ∈ l, y.category ≠ cat) : accCount l cat = 0 := by
  induction l with
  | nil => simp [accCount]
  | cons c rest ih =>
    rw [accCount_cons]
    have hc := h c (List.mem_cons_self _ _)
    rw [if_neg hc, ih (fun y hy => h y (List.mem_cons_of_mem _ hy))]
    ring

theorem accCount_of_mem (l : List CategorySummary)
    (h : l.Pairwise (fun a b => a.category ≠ b.category)) :
    ∀ x ∈ l, accCount l x.category = x.count := by
  induction l with
  | nil => simp
  | cons c rest ih =>
    have hhead := (List.pairwise_cons.mp h).1
    have htail := (List.pairwise_cons.mp h).2
    intro x hx
    rcases List.mem_cons.mp hx with rfl | hx'
    · rw [accCount_cons, if_pos rfl,
        accCount_eq_zero rest x.category (fun y hy => (hhead y hy).symm)]
      ring
    · rw [accCount_cons, if_neg (hhead x hx'), ih htail x hx']
      ring

/-- C3: for every port aggregate list `L` and every category `C` in the
output of the category builder, `C.count` is the sum of `count` over exactly
those entries of `L` whose classification maps to `C`'s category. -/
theorem buildCategories_count (L : List PortRow) :
    ∀ C ∈ buildCategories L, C.count = catCount L C.category := by
  intro C hC
  unfold buildCategories at hC
  rcases List.mem_map.mp hC with ⟨C₁, hC₁, rfl⟩
  have hC₁m : C₁ ∈ buildCategoryMap L := (sortDesc_perm _ _).mem_iff.mp hC₁
  have h1 : accCount (buildCategoryMap L) C₁.category = C₁.count :=
    accCount_of_mem _ (buildCategoryMap_pairwise L) C₁ hC₁m
  have h2 : accCount (buildCategoryMap L) C₁.category = catCount L C₁.category := by
    have := buildFold_accCount L [] C₁.category
    simpa [buildCategoryMap, accCount] using this
  exact (h1.symm.trans h2 : C₁.count = catCount L C₁.category)

/-- Witness for C3: on scenario A's rows, the Web category's count 150 is
the sum of the counts of its two classified rows. -/
theorem buildCategories_count_witness :
    (⟨"Web", 150, [⟨80, "HTTP", 100⟩, ⟨443, "HTTPS", 50⟩]⟩ : CategorySummary).count =
      catCount [⟨80, "TCP", 100⟩, ⟨443, "TCP", 50⟩, ⟨22, "TCP", 30⟩] "Web" :=
  buildCategories_count _ _ (by decide)

/-- C10: the category builder conserves input totals: the counts of the
returned categories sum to the total count of `L`, and the number of
per-category contributions before truncation equals the length of `L`. -/
theorem buildCategories_conservation (L : List PortRow) :
    ((buildCategories L).map (fun c => c.count)).sum = (L.map (fun r => r.count)).sum ∧
    ((buildCategoryMap L).map (fun c => c.ports.length)).sum = L.length := by
  constructor
  · have h1 : totalCount (buildCategoryMap L) = (L.map (fun r => r.count)).sum := by
      have := buildFold_totalCount L []
      simpa [buildCategoryMap, totalCount] using this
    have hmaps : (buildCategories L).map (fun c => c.count) =
        (sortDesc (fun c => c.count) (buildCategoryMap L)).map (fun c => c.count) := by
      simp only [buildCategories, List.map_map]
      rfl
    rw [hmaps]
    have hperm := (sortDesc_perm (fun c : CategorySummary => c.count)
      (buildCategoryMap L)).map (fun c => c.count)
    rw [hperm.sum_eq]
    exact h1
  · have := buildFold_totalPorts L []
    simpa [buildCategoryMap, totalPorts] using this

theorem sortDesc_count_as_indexed (m : List CategorySummary) :
    sortDesc (fun c : CategorySummary => c.count) m =
      (sortDesc (fun p : CategorySummary × Nat => p.1.count) (withIdx m 0)).map
        Prod.fst := by
  rw [map_fst_sortDesc (fun c : CategorySummary => c.count) (withIdx m 0),
    withIdx_map_fst]

theorem sortDesc_entry_as_indexed (l : List CatPortEntry) :
    sortDesc (fun p : CatPortEntry => p.count) l =
      (sortDesc (fun p : CatPortEntry × Nat => p.1.count) (withIdx l 0)).map
        Prod.fst := by
  rw [map_fst_sortDesc (fun p : CatPortEntry => p.count) (withIdx l 0),
    withIdx_map_fst]

/-- C4: categories come out ordered by count descending with ties broken by
first-encountered (accumulation) order, and each category's ports list is the
count-descending, first-encountered-tie-broken ordering of its accumulated
contributions truncated to 5, with the truncated contributions still counted
in the category total. -/
theorem buildCategories_ordering (rows : List PortRow) :
    ((buildCategories rows).map (fun c => (c.category, c.count)) =
      (sortDesc (fun p : CategorySummary × Nat => p.1.count)
        (withIdx (buildCategoryMap rows) 0)).map (fun p => (p.1.category, p.1.count))) ∧
    (sortDesc (fun p : CategorySummary × Nat => p.1.count)
        (withIdx (buildCategoryMap rows) 0)).Pairwise
      (fun x y => y.1.count < x.1.count ∨ (x.1.count = y.1.count ∧ x.2 < y.2)) ∧
    ∀ C ∈ buildCategories rows, C.ports.length ≤ 5 ∧
      ∃ D, D ∈ buildCategoryMap rows ∧ D.category = C.category ∧ D.count = C.count ∧
        C.count = (D.ports.map (fun p => p.count)).sum ∧
        C.ports = ((sortDesc (fun p : CatPortEntry × Nat => p.1.count)
            (withIdx D.ports 0)).map Prod.fst).take 5 ∧
        (sortDesc (fun p : CatPortEntry × Nat => p.1.count)
            (withIdx D.ports 0)).Pairwise
          (fun x y => y.1.count < x.1.count ∨ (x.1.count = y.1.count ∧ x.2 < y.2)) := by
  refine ⟨?_, ?_, ?_⟩
  · rw [buildCategories, sortDesc_count_as_indexed, List.map_map, List.map_map]
    rfl
  · exact sortDesc_stable (fun c : CategorySummary => c.count)
      (withIdx (buildCategoryMap rows) 0) (withIdx_pairwise _ 0)
  · intro C hC
    rw [buildCategories] at hC
    rcases List.mem_map.mp hC with ⟨D, hD, rfl⟩
    have hDm : D ∈ buildCategoryMap rows := (sortDesc_perm _ _).mem_iff.mp hD
    refine ⟨?_, D, hDm, rfl, rfl, ?_, ?_, ?_⟩
    · exact ((sortDesc (fun p : CatPortEntry => p.count) D.ports).length_take_le 5)
    · exact buildCategoryMap_portsSum rows D hDm
    · show (sortDesc (fun p : CatPortEntry => p.count) D.ports).take 5 = _
      rw [sortDesc_entry_as_indexed]
    · exact sortDesc_stable (fun p : CatPortEntry => p.count)
        (withIdx D.ports 0) (withIdx_pairwise _ 0)

/-- Witness for C4 on scenario A's rows: the leading Web category keeps at
most five ports. -/
theorem buildCategories_ordering_witness :
    (⟨"Web", 150, [⟨80, "HTTP", 100⟩, ⟨443, "HTTPS", 50⟩]⟩ : CategorySummary).ports.length ≤ 5 :=
  ((buildCategories_ordering [⟨80, "TCP", 100⟩, ⟨443, "TCP", 50⟩, ⟨22, "TCP", 30⟩]).2.2
    _ (by decide)).1

/-- A `protocol_counts` aggregate row of the response. -/
structure ProtocolRow where
  protocol : String
  count : Int
deriving DecidableEq

/-- A `top_talkers` aggregate row of the response. -/
structure TalkerRow where
  ip : String
  bytes_sent : Int
  bytes_received : Int
  packets_sent : Int
  packets_received : Int
deriving DecidableEq

/-- A `dns_domains` aggregate row of the response. -/
structure DNSRow where
  domain : String
  query_count : Int
deriving DecidableEq

/-- A `destinations` aggregate row of the response. -/
structure DestRow where
  address : String
  connection_count : Int
  bytes_total : Int
deriving DecidableEq

/-- The JSON response object of the traffic route, with exactly its six
top-level fields. -/
structure Response where
  protocols : List ProtocolRow
  ports : List PortRow
  talkers : List TalkerRow
  dnsDomains : List DNSRow
  destinations : List DestRow
  categories : List CategorySummary
deriving DecidableEq

/-- JavaScript `parseInt` on the capture id string, modelled on `Option Int`
with `none` standing for NaN: optional leading spaces and sign, then the
longest leading digit run; no digits means NaN.  (The hexadecimal `0x` form
accepted by `parseInt` is irrelevant to the values exercised here.) -/
def parseIntJS (s : String) : Option Int :=
  let cs := s.toList.dropWhile (fun c => c = ' ')
  match cs with
  | '-' :: rest =>
    let ds := rest.takeWhile Char.isDigit
    if ds.isEmpty then none
    else some (-(ds.foldl (fun n c => 10 * n + (c.toNat - 48)) 0 : Nat))
  | '+' :: rest =>
    let ds := rest.takeWhile Char.isDigit
    if ds.isEmpty then none
    else some ((ds.foldl (fun n c => 10 * n + (c.toNat - 48)) 0 : Nat))
  | _ =>
    let ds := cs.takeWhile Char.isDigit
    if ds.isEmpty then none
    else some ((ds.foldl (fun n c => 10 * n + (c.toNat - 48)) 0 : Nat))

/-- The bound-parameter list each query is issued with: the source pushes
`parseInt(captureId)` whenever `captureId` is truthy (non-null, non-empty)
and performs no validation whatsoever. -/
def scopeParams : Option String → List (Option Int)
  | none => []
  | some s => if s = "" then [] else [parseIntJS s]

/-- The row source behind `getAll`: one fallible grouped-sum read per
dimension, taking the bound parameters built from the capture scope. -/
structure Store where
  readProtocols : List (Option Int) → Except String (List ProtocolRow)
  readPorts : List (Option Int) → Except String (List PortRow)
  readTalkers : List (Option Int) → Except String (List TalkerRow)
  readDNS : List (Option Int) → Except String (List DNSRow)
  readDests : List (Option Int) → Except String (List DestRow)

/-- The single error payload of the route's catch-all handler. -/
def failMsg : String := "Failed to fetch traffic data"

/-- Shallow embedding of the route's `GET` handler: build the scope
parameters (identical for all five queries), perform the five reads in
source order, and either assemble the full six-field response or, if any
read throws, fall into the single catch and return the one error payload. -/
def GET (captureId : Option String) (store : Store) : Except String Response :=
  match store.readProtocols (scopeParams captureId) with
  | .error _ => .error failMsg
  | .ok protocols =>
    match store.readPorts (scopeParams captureId) with
    | .error _ => .error failMsg
    | .ok ports =>
      match store.readTalkers (scopeParams captureId) with
      | .error _ => .error failMsg
      | .ok talkers =>
        match store.readDNS (scopeParams captureId) with
        | .error _ => .error failMsg
        | .ok dnsDomains =>
          match store.readDests (scopeParams captureId) with
          | .error _ => .error failMsg
          | .ok destinations =>
            .ok ⟨protocols, ports, talkers, dnsDomains, destinations,
              buildCategories ports⟩

/-- Outcome discriminator for a read. -/
def isErr : Except String α → Bool
  | .error _ => true
  | .ok _ => false

/-- A raw `protocol_counts` table row. -/
structure DBProtocolRow where
  capture_id : Int
  protocol : String
  count : Int
deriving DecidableEq

/-- A raw `top_ports` table row. -/
structure DBPortRow where
  capture_id : Int
  port : Int
  protocol : String
  count : Int
deriving DecidableEq

/-- A raw `top_talkers` table row. -/
structure DBTalkerRow where
  capture_id : Int
  ip : String
  bytes_sent : Int
  bytes_received : Int
  packets_sent : Int
  packets_received : Int
deriving DecidableEq

/-- A raw `dns_domains` table row. -/
structure DBDNSRow where
  capture_id : Int
  domain : String
  query_count : Int
deriving DecidableEq

/-- A raw `destinations` table row. -/
structure DBDestRow where
  capture_id : Int
  address : String
  connection_count : Int
  bytes_total : Int
deriving DecidableEq

/-- The five raw tables the queries read. -/
structure DB where
  protocol_counts : List DBProtocolRow
  top_ports : List DBPortRow
  top_talkers : List DBTalkerRow
  dns_domains : List DBDNSRow
  destinations : List DBDestRow

/-- Modelled from the spec: the `WHERE capture_id = ?` filter applied by the
external store; an absent parameter list means no filter, and a NaN
parameter (the coercion pitfall of §9) equals no value, silently matching
nothing. -/
def matchesScope (params : List (Option Int)) (cid : Int) : Bool :=
  match params with
  | [] => true
  | some v :: _ => cid == v
  | none :: _ => false

/-- In-place combine-or-append used to model SQL `GROUP BY` accumulation. -/
def upsert (keyeq : α → α → Bool) (combine : α → α → α) (r : α) :
    List α → List α
  | [] => [r]
  | x :: l => if keyeq x r then combine x r :: l else x :: upsert keyeq combine r l

/-- Groups a row list, combining rows with equal keys, first-encountered
group order. -/
def groupRows (keyeq : α → α → Bool) (combine : α → α → α) (rows : List α) :
    List α :=
  rows.foldl (fun acc r => upsert keyeq combine r acc) []

/-- Modelled from the spec: the store's grouped-sum protocol query (the
`getAll`/SQLite executor is outside the given source): filter by scope,
group by protocol summing count, order by count descending, no limit. -/
def runProtocolsQuery (db : DB) (params : List (Option Int)) : List ProtocolRow :=
  sortDesc (fun r => r.count)
    (groupRows (fun a b => a.protocol == b.protocol)
      (fun a b => ⟨a.protocol, a.count + b.count⟩)
      ((db.protocol_counts.filter (fun r => matchesScope params r.capture_id)).map
        (fun r => ⟨r.protocol, r.count⟩)))

/-- Modelled from the spec: the store's grouped-sum port query: filter by
scope, group by (port, protocol) summing count, order by count descending,
limit 20. -/
def runPortsQuery (db : DB) (params : List (Option Int)) : List PortRow :=
  (sortDesc (fun r => r.count)
    (groupRows (fun a b => a.port == b.port && a.protocol == b.protocol)
      (fun a b => ⟨a.port, a.protocol, a.count + b.count⟩)
      ((db.top_ports.filter (fun r => matchesScope params r.capture_id)).map
        (fun r => ⟨r.port, r.protocol, r.count⟩)))).take 20

/-- Modelled from the spec: the store's grouped-sum talker query: filter by
scope, group by ip summing the four measures, order by total bytes
descending, limit 20. -/
def runTalkersQuery (db : DB) (params : List (Option Int)) : List TalkerRow :=
  (sortDesc (fun r => r.bytes_sent + r.bytes_received)
    (groupRows (fun a b => a.ip == b.ip)
      (fun a b => ⟨a.ip, a.bytes_sent + b.bytes_sent,
        a.bytes_received + b.bytes_received, a.packets_sent + b.packets_sent,
        a.packets_received + b.packets_received⟩)
      ((db.top_talkers.filter (fun r => matchesScope params r.capture_id)).map
        (fun r => ⟨r.ip, r.bytes_sent, r.bytes_received, r.packets_sent,
          r.packets_received⟩)))).take 20

/-- Modelled from the spec: the store's grouped-sum DNS query: filter by
scope, group by domain summing query_count, order descending, limit 50. -/
def runDNSQuery (db : DB) (params : List (Option Int)) : List DNSRow :=
  (sortDesc (fun r => r.query_count)
    (groupRows (fun a b => a.domain == b.domain)
      (fun a b => ⟨a.domain, a.query_count + b.query_count⟩)
      ((db.dns_domains.filter (fun r => matchesScope params r.capture_id)).map
        (fun r => ⟨r.domain, r.query_count⟩)))).take 50

/-- Modelled from the spec: the store's grouped-sum destination query:
filter by scope, group by address summing both measures, order by
bytes_total descending, limit 20. -/
def runDestsQuery (db : DB) (params : List (Option Int)) : List DestRow :=
  (sortDesc (fun r => r.bytes_total)
    (groupRows (fun a b => a.address == b.address)
      (fun a b => ⟨a.address, a.connection_count + b.connection_count,
        a.bytes_total + b.bytes_total⟩)
      ((db.destinations.filter (fun r => matchesScope params r.capture_id)).map
        (fun r => ⟨r.address, r.connection_count, r.bytes_total⟩)))).take 20

/-- Modelled from the spec: a store executing the five grouped-sum queries
over raw tables; such reads never throw. -/
def modelStore (db : DB) : Store where
  readProtocols := fun ps => .ok (runProtocolsQuery db ps)
  readPorts := fun ps => .ok (runPortsQuery db ps)
  readTalkers := fun ps => .ok (runTalkersQuery db ps)
  readDNS := fun ps => .ok (runDNSQuery db ps)
  readDests := fun ps => .ok (runDestsQuery db ps)

/-- A one-capture database with a single TCP/port-80 observation. -/
def sampleDB : DB where
  protocol_counts := [⟨1, "TCP", 10⟩]
  top_ports := [⟨1, 80, "TCP", 10⟩]
  top_talkers := []
  dns_domains := []
  destinations := []

/-- C1 (refuted by the code): with `captureId = "abc"`, the handler does not
reject with an InvalidScope error; it coerces the value to NaN, issues all
five store reads with that parameter, and returns a successful response
whose filter silently matched nothing. -/
theorem invalidScope_not_rejected :
    scopeParams (some "abc") = [Option.none] ∧
    GET (some "abc") (modelStore sampleDB) = .ok ⟨[], [], [], [], [], []⟩ :=
  ⟨rfl, rfl⟩

/-- C6: the assembly yields either a full six-field response or the single
error payload, and it yields the error payload exactly when at least one of
the five dimension reads fails; no mixed partial response exists. -/
theorem GET_no_partial (captureId : Option String) (store : Store) :
    ((∃ r, GET captureId store = Except.ok r) ∨
      GET captureId store = Except.error failMsg) ∧
    (GET captureId store = Except.error failMsg ↔
      (isErr (store.readProtocols (scopeParams captureId)) = true ∨
       isErr (store.readPorts (scopeParams captureId)) = true ∨
       isErr (store.readTalkers (scopeParams captureId)) = true ∨
       isErr (store.readDNS (scopeParams captureId)) = true ∨
       isErr (store.readDests (scopeParams captureId)) = true)) := by
  cases h1 : store.readProtocols (scopeParams captureId) with
  | error e1 => simp [GET, h1, isErr]
  | ok p =>
    cases h2 : store.readPorts (scopeParams captureId) with
    | error e2 => simp [GET, h1, h2, isErr]
    | ok po =>
      cases h3 : store.readTalkers (scopeParams captureId) with
      | error e3 => simp [GET, h1, h2, h3, isErr]
      | ok t =>
        cases h4 : store.readDNS (scopeParams captureId) with
        | error e4 => simp [GET, h1, h2, h3, h4, isErr]
        | ok d =>
          cases h5 : store.readDests (scopeParams captureId) with
          | error e5 => simp [GET, h1, h2, h3, h4, h5, isErr]
          | ok de => simp [GET, h1, h2, h3, h4, h5, isErr]

theorem buildCategories_ports_le (rows : List PortRow) :
    ∀ C ∈ buildCategories rows, C.ports.length ≤ 5 := by
  intro C hC
  rw [buildCategories] at hC
  rcases List.mem_map.mp hC with ⟨D, -, rfl⟩
  exact (sortDesc (fun p : CatPortEntry => p.count) D.ports).length_take_le 5

/-- C7: every successful assembly over the modelled store respects the
truncation bounds (ports ≤ 20, talkers ≤ 20, dnsDomains ≤ 50,
destinations ≤ 20, each category's ports ≤ 5) and the response is exactly
the six-field object. -/
theorem GET_truncation_bounds (db : DB) (captureId : Option String) (r : Response)
    (h : GET captureId (modelStore db) = Except.ok r) :
    r.ports.length ≤ 20 ∧ r.talkers.length ≤ 20 ∧ r.dnsDomains.length ≤ 50 ∧
    r.destinations.length ≤ 20 ∧ (∀ C ∈ r.categories, C.ports.length ≤ 5) ∧
    r = ⟨r.protocols, r.ports, r.talkers, r.dnsDomains, r.destinations,
      r.categories⟩ := by
  have hred : GET captureId (modelStore db) =
      .ok ⟨runProtocolsQuery db (scopeParams captureId),
        runPortsQuery db (scopeParams captureId),
        runTalkersQuery db (scopeParams captureId),
        runDNSQuery db (scopeParams captureId),
        runDestsQuery db (scopeParams captureId),
        buildCategories (runPortsQuery db (scopeParams captureId))⟩ := rfl
  rw [hred] at h
  have hr := (Except.ok.injEq _ _).mp h
  subst hr
  refine ⟨?_, ?_, ?_, ?_, ?_, rfl⟩
  · exact List.length_take_le _ _
  · exact List.length_take_le _ _
  · exact List.length_take_le _ _
  · exact List.length_take_le _ _
  · exact buildCategories_ports_le _

/-- Witness for C7 on the sample database with no scope. -/
theorem GET_truncation_bounds_witness :
    ([⟨80, "TCP", 10⟩] : List PortRow).length ≤ 20 :=
  (GET_truncation_bounds sampleDB Option.none
    ⟨[⟨"TCP", 10⟩], [⟨80, "TCP", 10⟩], [], [], [],
      [⟨"Web", 10, [⟨80, "HTTP", 10⟩]⟩]⟩ rfl).1

/-- The empty database. -/
def emptyDB : DB where
  protocol_counts := []
  top_ports := []
  top_talkers := []
  dns_domains := []
  destinations := []

/-- C8: aggregating empty row sets yields empty lists, not errors: over the
empty database every dimension of the assembled response is the empty list,
the assembly succeeds for every scope, and the category builder on an empty
port aggregate yields no categories. -/
theorem GET_empty_ok (captureId : Option String) :
    GET captureId (modelStore emptyDB) = .ok ⟨[], [], [], [], [], []⟩ ∧
    buildCategories [] = [] :=
  ⟨rfl, rfl⟩
